import Mathlib

/-!
Verification of the Notepad2 editor-state synchronization and undo/redo
engine against its source (noteManager.js, storage.js, uiManager.js).
Pure data is embedded as Lean structures; stateful code is embedded as
explicit state-passing functions; the cooperative event loop (debounce
timers, animation-frame callbacks and delayed callbacks) is embedded as
a machine with an explicit queue of pending jobs ordered by fire time.
JavaScript 32-bit integer coercions are modelled on Int with explicit
reduction modulo 2^32.
-/

/-- Embeds the Toggle record shape used throughout the repository:
id, title, content, isOpen (noteManager.js createNote, uiManager.js). -/
structure Toggle where
  id : Nat
  title : String
  content : String
  isOpen : Bool
deriving DecidableEq

/-- Embeds the Note record shape: id, title, toggles, created, updated
(noteManager.js createNote). Timestamps are opaque strings. -/
structure Note where
  id : Nat
  title : String
  toggles : List Toggle
  created : String
  updated : String
deriving DecidableEq

/-- Modelled from the spec: the repository imports HistoryManager from
history.js, a file absent from the sources; only its callers are present.
Spec 4.2: state is an undo stack and a redo stack of snapshots; the top
of a stack is its head. -/
structure HistoryManager where
  undoStack : List Note
  redoStack : List Note
deriving DecidableEq

/-- Modelled from the spec (4.2): push appends the snapshot to the top of
the undo stack and clears the redo stack entirely. -/
def HistoryManager.push (h : HistoryManager) (snapshot : Note) : HistoryManager :=
  { undoStack := snapshot :: h.undoStack, redoStack := [] }

/-- Modelled from the spec (4.2): undo on an empty undo stack returns null
with no state change; otherwise it pops the top snapshot, pushes the
caller-supplied current state onto the redo stack, and returns the popped
snapshot. -/
def HistoryManager.undo (h : HistoryManager) (currentState : Note) :
    Option Note × HistoryManager :=
  match h.undoStack with
  | [] => (none, h)
  | prev :: rest =>
    (some prev, { undoStack := rest, redoStack := currentState :: h.redoStack })

/-- Modelled from the spec (4.2): redo is symmetric to undo. -/
def HistoryManager.redo (h : HistoryManager) (currentState : Note) :
    Option Note × HistoryManager :=
  match h.redoStack with
  | [] => (none, h)
  | next :: rest =>
    (some next, { undoStack := currentState :: h.undoStack, redoStack := rest })

/-- Modelled from the spec (4.2): canUndo is derived, not stored. -/
def HistoryManager.canUndo (h : HistoryManager) : Bool :=
  !h.undoStack.isEmpty

/-- Modelled from the spec (4.2): canRedo is derived, not stored. -/
def HistoryManager.canRedo (h : HistoryManager) : Bool :=
  !h.redoStack.isEmpty

/-- Embeds NoteManager state (noteManager.js): the in-memory notes list.
The writes counter counts StorageManager.save calls made through
saveNotes, so that absence of a storage write is observable. -/
structure NoteManager where
  notes : List Note
  writes : Nat
deriving DecidableEq

/-- Embeds noteManager.js updateNote (lines 29-36): sets the passed-in
note's updated timestamp, then looks for the first stored note with the
same id; when found, replaces it by a deep copy of the note and saves,
otherwise it does nothing further. The wall clock is passed explicitly as
now. Returns the new manager state and the (mutated) passed-in note. -/
def NoteManager.updateNote (m : NoteManager) (note : Note) (now : String) :
    NoteManager × Note :=
  let note2 := { note with updated := now }
  match m.notes.findIdx? (fun n => n.id == note2.id) with
  | none => (m, note2)
  | some i => ({ notes := m.notes.set i note2, writes := m.writes + 1 }, note2)

theorem findIdx?_eq_none_of_forall {α : Type} (p : α → Bool) :
    ∀ (l : List α), (∀ a ∈ l, p a = false) → l.findIdx? p = none := by
  intro l
  induction l with
  | nil => intro _; rfl
  | cons a l ih =>
    intro h
    have ha : p a = false := h a (List.mem_cons_self a l)
    simp [List.findIdx?, ha]
    have := ih (fun b hb => h b (List.mem_cons_of_mem a hb))
    simpa [List.findIdx?] using this

/-- C2: Undo/redo inverse law for HistoryManager: after push(A), undo(B)
returns A and canRedo becomes true; a subsequent redo(A) returns B; and
undo on an empty undo stack returns null with no state change and no
stack mutation. (HistoryManager is modelled from the spec; history.js is
not among the sources.) -/
theorem history_undo_redo_inverse (h : HistoryManager) (A B : Note) :
    ((h.push A).undo B).1 = some A ∧
    (((h.push A).undo B).2).canRedo = true ∧
    ((((h.push A).undo B).2).redo A).1 = some B ∧
    (∀ h0 : HistoryManager, h0.undoStack = [] → h0.undo B = (none, h0)) := by
  refine ⟨rfl, rfl, rfl, ?_⟩
  intro h0 h0e
  unfold HistoryManager.undo
  rw [h0e]

/-- Witness for C2 at a concrete history and concrete snapshots. -/
theorem history_undo_redo_inverse_witness :
    ((HistoryManager.push ⟨[], []⟩ ⟨1, "A", [], "c", "u"⟩).undo ⟨1, "B", [], "c", "u"⟩).1 =
      some ⟨1, "A", [], "c", "u"⟩ ∧
    (((HistoryManager.push ⟨[], []⟩ ⟨1, "A", [], "c", "u"⟩).undo
        ⟨1, "B", [], "c", "u"⟩).2).canRedo = true ∧
    ((((HistoryManager.push ⟨[], []⟩ ⟨1, "A", [], "c", "u"⟩).undo
        ⟨1, "B", [], "c", "u"⟩).2).redo ⟨1, "A", [], "c", "u"⟩).1 =
      some ⟨1, "B", [], "c", "u"⟩ ∧
    HistoryManager.undo ⟨[], []⟩ ⟨1, "B", [], "c", "u"⟩ = (none, ⟨[], []⟩) := by
  have h := history_undo_redo_inverse ⟨[], []⟩ ⟨1, "A", [], "c", "u"⟩ ⟨1, "B", [], "c", "u"⟩
  exact ⟨h.1, h.2.1, h.2.2.1, h.2.2.2 ⟨[], []⟩ rfl⟩

/-- C9: for a note whose id occurs nowhere in the stored notes list,
updateNote leaves the manager unchanged (same notes list, no storage
write) and its only effect is setting the passed-in note's updated
timestamp. -/
theorem updateNote_unknown_id (m : NoteManager) (note : Note) (now : String)
    (h : ∀ n ∈ m.notes, n.id ≠ note.id) :
    m.updateNote note now = (m, { note with updated := now }) := by
  unfold NoteManager.updateNote
  have hfalse : ∀ n ∈ m.notes, (n.id == Note.id { note with updated := now }) = false := by
    intro n hn
    simpa using h n hn
  simp only [findIdx?_eq_none_of_forall _ m.notes hfalse]

/-- Witness for C9 at a concrete manager and note. -/
theorem updateNote_unknown_id_witness :
    NoteManager.updateNote ⟨[⟨1, "kept", [⟨10, "S", "c", true⟩], "c1", "u1"⟩], 0⟩
        ⟨2, "other", [], "c2", "u2"⟩ "now" =
      (⟨[⟨1, "kept", [⟨10, "S", "c", true⟩], "c1", "u1"⟩], 0⟩,
       ⟨2, "other", [], "c2", "now"⟩) :=
  updateNote_unknown_id ⟨[⟨1, "kept", [⟨10, "S", "c", true⟩], "c1", "u1"⟩], 0⟩
    ⟨2, "other", [], "c2", "u2"⟩ "now" (by decide)

/-- Embeds the 32-bit signed-integer coercion JavaScript applies through
the bitwise operators in _hashContent (uiManager.js lines 537-544). -/
def toInt32 (n : Int) : Int := (n + 2 ^ 31) % 2 ^ 32 - 2 ^ 31

/-- Embeds uiManager.js _hashContent (lines 537-544): a rolling hash,
hash = toInt32(toInt32(hash shifted left by 5) - hash + code) per
character, starting from 0. The shift-left of an int32 value is int32
multiplication by 32; the trailing bitwise-and of the value with itself
is the final int32 coercion. Characters are iterated as code points,
which agrees with JavaScript charCodeAt on the basic multilingual
plane. -/
def _hashContent (content : String) : Int :=
  content.data.foldl (fun hash c => toInt32 (toInt32 (hash * 32) - hash + c.toNat)) 0

theorem toInt32_range (n : Int) : -(2 ^ 31) ≤ toInt32 n ∧ toInt32 n < 2 ^ 31 := by
  unfold toInt32
  have h1 : (0 : Int) ≤ (n + 2 ^ 31) % 2 ^ 32 := Int.emod_nonneg _ (by norm_num)
  have h2 : (n + 2 ^ 31) % 2 ^ 32 < 2 ^ 32 := Int.emod_lt_of_pos _ (by norm_num)
  constructor <;> omega

theorem hash_fold_range (l : List Char) :
    ∀ h : Int, -(2 ^ 31) ≤ h → h < 2 ^ 31 →
      -(2 ^ 31) ≤ l.foldl (fun hash c => toInt32 (toInt32 (hash * 32) - hash + c.toNat)) h ∧
      l.foldl (fun hash c => toInt32 (toInt32 (hash * 32) - hash + c.toNat)) h < 2 ^ 31 := by
  induction l with
  | nil => intro h h1 h2; exact ⟨h1, h2⟩
  | cons c l ih =>
    intro h _ _
    have hr := toInt32_range (toInt32 (h * 32) - h + c.toNat)
    exact ih _ hr.1 hr.2

/-- C10: _hashContent is a total deterministic function of the text alone,
always returning a 32-bit signed integer, with hash 0 for the empty
string: equal strings always hash equal. -/
theorem hashContent_deterministic_int32 :
    (∀ s : String, -(2 ^ 31) ≤ _hashContent s ∧ _hashContent s < 2 ^ 31) ∧
    _hashContent "" = 0 ∧
    (∀ s t : String, s = t → _hashContent s = _hashContent t) := by
  refine ⟨?_, rfl, ?_⟩
  · intro s
    exact hash_fold_range s.data 0 (by norm_num) (by norm_num)
  · intro s t hst
    rw [hst]

/-- Witness for C10 at concrete strings. -/
theorem hashContent_deterministic_int32_witness :
    (-(2 ^ 31) ≤ _hashContent "abc" ∧ _hashContent "abc" < 2 ^ 31) ∧
    _hashContent "" = 0 ∧
    _hashContent "abc" = _hashContent "abc" :=
  ⟨hashContent_deterministic_int32.1 "abc",
   hashContent_deterministic_int32.2.1,
   hashContent_deterministic_int32.2.2 "abc" "abc" rfl⟩

/-- Embeds the commit-scheduler state of UIManager (uiManager.js): the
live note being edited, the pending auto-save timer (when armed, it holds
the previousState its callback closure captured at arming time), the
history manager, and the note manager. -/
structure CommitState where
  currentNote : Note
  pendingSnapshot : Option Note
  history : HistoryManager
  noteMgr : NoteManager
deriving DecidableEq

/-- Embeds uiManager.js handleNoteChange (lines 263-282) for a title
input event (the only events wired to it): cancel any pending auto-save
timer, deep-copy the current note into a fresh previousState local,
mutate the live note's title immediately, and re-arm the timer with a
callback closing over this call's own previousState. -/
def handleNoteChange (st : CommitState) (newTitle : String) : CommitState :=
  { st with
    currentNote := { st.currentNote with title := newTitle },
    pendingSnapshot := some st.currentNote }

/-- Embeds the auto-save timer callback of handleNoteChange (uiManager.js
lines 276-281): when the armed timer fires, compare the captured
previousState with the live note by serialized equality; when they
differ, push previousState onto history and persist the live note. -/
def autoSaveFire (now : String) (st : CommitState) : CommitState :=
  match st.pendingSnapshot with
  | none => st
  | some prev =>
    if prev ≠ st.currentNote then
      let r := st.noteMgr.updateNote st.currentNote now
      { st with
        history := st.history.push prev,
        noteMgr := r.1,
        currentNote := r.2,
        pendingSnapshot := none }
    else { st with pendingSnapshot := none }

theorem commit_fold_history (ts : List String) :
    ∀ st : CommitState, (ts.foldl handleNoteChange st).history = st.history ∧
      (ts.foldl handleNoteChange st).noteMgr = st.noteMgr := by
  induction ts with
  | nil => intro st; exact ⟨rfl, rfl⟩
  | cons t ts ih => intro st; exact ih (handleNoteChange st t)

theorem note_set_title_eq (m : Note) (t : String) :
    ({ m with title := t } = m) ↔ t = m.title := by
  cases m
  simp [Note.mk.injEq]

/-- C1 counterexample: with a burst of two rapid title edits (the second
arriving before the commit timer fires) from title "A" to "AB" and then
"ABC", the single history entry pushed when the timer fires is the note
titled "AB" (the state recaptured at the second edit), not the burst
start state titled "A": the claim that the pushed snapshot is pinned to
the burst start is false on the code. -/
theorem commit_burst_pinned_counterexample :
    (let tog : Toggle := ⟨10, "S", "", true⟩
     let noteA : Note := ⟨1, "A", [tog], "c", "u"⟩
     let st0 : CommitState := ⟨noteA, none, ⟨[], []⟩, ⟨[noteA], 0⟩⟩
     let stF := autoSaveFire "t1" (["AB", "ABC"].foldl handleNoteChange st0)
     stF.history.undoStack.map Note.title = ["AB"]) ∧ ("AB" : String) ≠ "A" := by
  constructor
  · rfl
  · decide

/-- C1 amended: for every burst of rapid title edits, at most one history
entry is pushed for the whole burst (exactly one when the final edit left
the note different from the state just before it), each edit mutates the
live note immediately, but re-arming the timer recaptures the pre-edit
snapshot on every edit, so the snapshot pushed is the note state captured
immediately before the last edit of the burst, not the burst start. -/
theorem commit_burst_coalesces_to_pre_last_edit
    (st0 : CommitState) (ts : List String) (t : String) (now : String) :
    ((ts ++ [t]).foldl handleNoteChange st0).currentNote =
      { (ts.foldl handleNoteChange st0).currentNote with title := t } ∧
    ((ts ++ [t]).foldl handleNoteChange st0).history = st0.history ∧
    (autoSaveFire now ((ts ++ [t]).foldl handleNoteChange st0)).history.undoStack =
      (if (ts.foldl handleNoteChange st0).currentNote.title = t
       then st0.history.undoStack
       else (ts.foldl handleNoteChange st0).currentNote :: st0.history.undoStack) := by
  rw [List.foldl_append]
  set stm := ts.foldl handleNoteChange st0 with hstm
  have hh : stm.history = st0.history := (commit_fold_history ts st0).1
  refine ⟨rfl, by simpa [handleNoteChange] using hh, ?_⟩
  show (autoSaveFire now (handleNoteChange stm t)).history.undoStack = _
  unfold autoSaveFire handleNoteChange
  by_cases hc : stm.currentNote.title = t
  · have heq : ({ stm.currentNote with title := t } : Note) = stm.currentNote :=
      (note_set_title_eq _ _).mpr hc.symm
    simp [heq, hc, hh]
  · have hne : stm.currentNote ≠ ({ stm.currentNote with title := t } : Note) := by
      intro h
      exact hc (((note_set_title_eq _ _).mp h.symm).symm)
    simp [hne, hc, hh, HistoryManager.push]

/-- Embeds JavaScript Math.round applied to an exact ratio num/den with
den positive: round-half-toward-positive-infinity, computed as the floor
of (2*num + den)/(2*den). The code computes the ratio in floating point;
the model uses the exact rational value. -/
def jsRound (num den : Int) : Int := Int.fdiv (2 * num + den) (2 * den)

/-- Embeds a rendered textarea region: its data-toggle-id, its live text
value, and its viewport metrics. -/
structure TextArea where
  id : Nat
  value : String
  scrollTop : Int
  scrollHeight : Int
deriving DecidableEq

/-- Embeds the rendered editor: the scroll container's offset and the
list of textarea regions in render order. -/
structure Dom where
  editorScrollTop : Int
  areas : List TextArea
deriving DecidableEq

/-- Embeds document.querySelector for a textarea with a given
data-toggle-id: the first region with that id, if any. -/
def findArea (d : Dom) (i : Nat) : Option TextArea :=
  d.areas.find? (fun ta => ta.id == i)

/-- Assigns scrollTop on the first region with the given id, the element
querySelector resolves to; other regions are untouched. -/
def setAreaScrollTop : List TextArea → Nat → Int → List TextArea
  | [], _, _ => []
  | ta :: rest, i, v =>
    if ta.id == i then { ta with scrollTop := v } :: rest
    else ta :: setAreaScrollTop rest i v

/-- Assigns scrollTop on the first region of the editor with the given
id. -/
def setScrollTop (d : Dom) (i : Nat) (v : Int) : Dom :=
  { d with areas := setAreaScrollTop d.areas i v }

/-- Embeds the per-region capture record built in _handleToggleSection
(uiManager.js lines 433-438): scrollTop, scrollHeight, content, and the
content hash. -/
structure ScrollState where
  scrollTop : Int
  scrollHeight : Int
  content : String
  contentHash : Int
deriving DecidableEq

/-- Embeds the data the restore closures of _handleToggleSection hold:
the container offset captured before the mutation, the captured
per-region map in insertion order, the target toggle id, and the target
toggle's isOpen as flipped by the mutation (read through the captured
reference). -/
structure Capture where
  editorScrollTop : Int
  scrollPositions : List (Nat × ScrollState)
  toggleId : Nat
  toggleIsOpen : Bool
deriving DecidableEq

/-- Embeds toggleScrollState = scrollPositions.get(toggleId)
(uiManager.js line 450). -/
def Capture.toggleScrollState (c : Capture) : Option ScrollState :=
  (c.scrollPositions.find? (fun p => p.1 == c.toggleId)).map Prod.snd

/-- Embeds the capture loop of _handleToggleSection (uiManager.js lines
430-441): for each toggle of the note whose textarea is rendered, record
its viewport metrics and content hash, keyed by toggle id. -/
def captureScrollPositions (toggles : List Toggle) (d : Dom) : List (Nat × ScrollState) :=
  toggles.foldl
    (fun acc t =>
      match findArea d t.id with
      | some ta =>
        acc ++ [(t.id, ⟨ta.scrollTop, ta.scrollHeight, ta.value, _hashContent ta.value⟩)]
      | none => acc)
    []

/-- Embeds the scrollTop a pass-1 restore assigns (uiManager.js lines
469-474 and 477-482): when the scrollHeight changed between capture and
restore the captured scrollTop is rescaled by the ratio of the new to
the old scrollHeight and rounded, otherwise it is applied verbatim. -/
def restoredScrollTop (state : ScrollState) (ta : TextArea) : Int :=
  if state.scrollHeight ≠ ta.scrollHeight then
    jsRound (state.scrollTop * ta.scrollHeight) state.scrollHeight
  else state.scrollTop

/-- Embeds one iteration of the pass-1 restore loop (uiManager.js lines
464-485): look up the region; when its live content hash matches the
captured one, either defer the target region to a nested
animation-frame callback (when the target is now open), or reapply the
(possibly rescaled) scrollTop to a non-target region at once; the target
region is skipped entirely when it was just closed. The second component
accumulates the deferred nested callbacks. -/
def pass1Step (cap : Capture) (acc : Dom × List (Nat × ScrollState))
    (p : Nat × ScrollState) : Dom × List (Nat × ScrollState) :=
  match findArea acc.1 p.1 with
  | some ta =>
    if _hashContent ta.value = p.2.contentHash then
      if p.1 = cap.toggleId then
        if cap.toggleIsOpen then (acc.1, acc.2 ++ [p]) else acc
      else (setScrollTop acc.1 p.1 (restoredScrollTop p.2 ta), acc.2)
    else acc
  | none => acc

/-- Embeds the pass-1 restore callback body (uiManager.js lines 458-485
up to the scheduling of pass 2): restore the container offset, then run
the restore loop over the captured map. Returns the new editor tree and
the list of deferred nested animation-frame restores. -/
def pass1Apply (d : Dom) (cap : Capture) : Dom × List (Nat × ScrollState) :=
  cap.scrollPositions.foldl (pass1Step cap)
    ({ d with editorScrollTop := cap.editorScrollTop }, [])

/-- Embeds the nested animation-frame callback scheduled by pass 1 for
the target region (uiManager.js lines 468-475): reapply the (possibly
rescaled) captured scrollTop; the hash is not re-verified here. -/
def innerRafApply (d : Dom) (tid : Nat) (state : ScrollState) : Dom :=
  match findArea d tid with
  | some ta => setScrollTop d tid (restoredScrollTop state ta)
  | none => d

/-- Embeds one iteration of the pass-2 loop over non-target regions
(uiManager.js lines 496-503): re-verify the hash and reapply the
captured scrollTop verbatim. -/
def pass2Step (cap : Capture) (d : Dom) (p : Nat × ScrollState) : Dom :=
  if p.1 ≠ cap.toggleId then
    match findArea d p.1 with
    | some ta =>
      if _hashContent ta.value = p.2.contentHash then setScrollTop d p.1 p.2.scrollTop
      else d
    | none => d
  else d

/-- Embeds the target-region restore that opens pass 2 (uiManager.js
lines 489-494): when the target toggle is open and was captured,
re-verify its hash and reapply its captured scrollTop verbatim. -/
def pass2Target (d : Dom) (cap : Capture) : Dom :=
  if cap.toggleIsOpen then
    match cap.toggleScrollState with
    | some ts =>
      match findArea d cap.toggleId with
      | some ta =>
        if _hashContent ta.value = ts.contentHash then
          setScrollTop d cap.toggleId ts.scrollTop
        else d
      | none => d
    | none => d
  else d

/-- Embeds the pass-2 restore callback body (uiManager.js lines 487-503):
the target-region restore, then the loop over the other regions, also
verbatim. -/
def pass2Apply (d : Dom) (cap : Capture) : Dom :=
  cap.scrollPositions.foldl (pass2Step cap) (pass2Target d cap)

/-- Embeds uiManager.js _resetScrollPositions (lines 612-619): the
container's scrollTop and every textarea's scrollTop are set to 0. -/
def _resetScrollPositions (d : Dom) : Dom :=
  { editorScrollTop := 0, areas := d.areas.map (fun ta => { ta with scrollTop := 0 }) }

/-- Embeds the editor-level state of UIManager relevant to toggle
reconciliation: the live note, the reentrancy guard, the history, the
note manager, a count of re-renders, and the rendered tree. -/
structure EditorState where
  currentNote : Option Note
  isRestoring : Bool
  history : HistoryManager
  noteMgr : NoteManager
  renders : Nat
  dom : Dom
deriving DecidableEq

/-- Embeds uiManager.js renderEditor(false) (lines 674-713) as seen by
the reconciliation protocol: every toggle's textarea is destroyed and
recreated from the note (fresh scrollTop 0, value equal to the content);
post-render scrollHeights come from the layout oracle passed in; the
scroll container itself is not rebuilt. The savedToggleStates
bookkeeping of saveEditorState is not observed by the modelled
operations and is omitted. -/
def renderEditor (st : EditorState) (note : Note) (heights : Nat → Int) : EditorState :=
  { st with
    renders := st.renders + 1,
    dom := { st.dom with
      areas := note.toggles.map (fun t => ⟨t.id, t.content, 0, heights t.id⟩) } }

/-- Embeds the in-place isOpen flip of _handleToggleSection (line 452):
the first toggle with the target id is flipped. -/
def flipFirstToggle : List Toggle → Nat → List Toggle
  | [], _ => []
  | t :: ts, tid =>
    if t.id == tid then { t with isOpen := !t.isOpen } :: ts
    else t :: flipFirstToggle ts tid

/-- Embeds the synchronous part of uiManager.js _handleToggleSection
(lines 419-456 and the outer catch at 520-523): drop the call when the
reentrancy guard is held or no note is open; otherwise capture the
container offset and the per-region scroll states, and look up the
target toggle. When the toggle is absent the code throws, the outer
catch logs and releases the guard, and nothing else happens: no scroll
reset, no history push, no re-render, no scheduled restore. Otherwise
flip the toggle, push the pre-mutation snapshot, persist through
NoteManager.updateNote (which stamps the live note's updated field),
re-render, and hand the capture to the pass-1 restore which the caller
schedules on the next animation frame. -/
def handleToggleFire (now : String) (heights : Nat → Int) (st : EditorState)
    (tid : Nat) : EditorState × Option Capture :=
  if st.isRestoring then (st, none)
  else
    match st.currentNote with
    | none => (st, none)
    | some note =>
      let sp := captureScrollPositions note.toggles st.dom
      match note.toggles.find? (fun t => t.id == tid) with
      | none => (st, none)
      | some t =>
        let previousState := note
        let note1 := { note with toggles := flipFirstToggle note.toggles tid }
        let r := st.noteMgr.updateNote note1 now
        let st1 := renderEditor
          { st with
            currentNote := some r.2,
            isRestoring := true,
            history := st.history.push previousState,
            noteMgr := r.1 } r.2 heights
        (st1, some ⟨st.dom.editorScrollTop, sp, tid, !t.isOpen⟩)

/-- Applies the pass-1 restore callback to the editor state, returning
the deferred nested animation-frame restores (uiManager.js lines
458-485). -/
def pass1Run (st : EditorState) (cap : Capture) : EditorState × List (Nat × ScrollState) :=
  let r := pass1Apply st.dom cap
  ({ st with dom := r.1 }, r.2)

/-- Embeds the catch handler of the pass-1 restore (uiManager.js lines
513-517): an exception raised during the pass is answered by the hard
scroll reset and the release of the reentrancy guard; pass 2 has not
been scheduled. -/
def pass1Catch (st : EditorState) : EditorState :=
  { st with dom := _resetScrollPositions st.dom, isRestoring := false }

/-- Applies the pass-2 restore callback to the editor state, including
its finally block which releases the reentrancy guard (uiManager.js
lines 487-511). -/
def pass2Run (st : EditorState) (cap : Capture) : EditorState :=
  { st with dom := pass2Apply st.dom cap, isRestoring := false }

/-- Embeds the catch plus finally of the pass-2 restore (uiManager.js
lines 504-510): an exception is answered by the hard scroll reset, and
the finally block releases the reentrancy guard. -/
def pass2Catch (st : EditorState) : EditorState :=
  { st with dom := _resetScrollPositions st.dom, isRestoring := false }

/-- The deferred continuations of the reconciler: the debounce timer of
toggleSection, the pass-1 animation frame, the nested animation frame
for the target region, and the pass-2 delayed timer. -/
inductive Job where
  | debounceFire (toggleId : Nat)
  | pass1Fire (cap : Capture)
  | innerRafFire (toggleId : Nat) (state : ScrollState)
  | pass2Fire (cap : Capture)
deriving DecidableEq

/-- The cooperative event-loop machine: current time, a source of fresh
timer handles, the pending jobs as (fire time, handle, job), the owned
debounce and pass-2 timer handles, the layout oracle giving each
region's post-render scrollHeight, and the editor state. -/
structure Machine where
  time : Nat
  nextId : Nat
  queue : List (Nat × Nat × Job)
  toggleDebounce : Option Nat
  scrollRestoreTimeout : Option Nat
  heights : Nat → Int
  st : EditorState

/-- Embeds clearTimeout on an owned handle: the pending job with that
handle, if still queued, is removed. -/
def cancelTimer (q : List (Nat × Nat × Job)) : Option Nat → List (Nat × Nat × Job)
  | none => q
  | some i => q.filter (fun e => e.2.1 != i)

/-- Embeds uiManager.js toggleSection (lines 401-417): when a note is
open, clear any pending debounce timer, clear any pending pass-2 restore
timer (nulling the handle), then arm a 50-time-unit debounce whose
callback is _handleToggleSection(toggleId). -/
def toggleSection (m : Machine) (tid : Nat) : Machine :=
  match m.st.currentNote with
  | none => m
  | some _ =>
    let q1 := cancelTimer m.queue m.toggleDebounce
    let q2 := cancelTimer q1 m.scrollRestoreTimeout
    { m with
      queue := q2 ++ [(m.time + 50, m.nextId, Job.debounceFire tid)],
      toggleDebounce := some m.nextId,
      scrollRestoreTimeout := none,
      nextId := m.nextId + 1 }

/-- Dispatches one due job: the debounce timer runs the synchronous
toggle handler and schedules the pass-1 animation frame (16 time-units
later) when a reconciliation started; the pass-1 frame applies the first
restore pass, schedules its nested animation-frame restores, and arms
the pass-2 timer 100 time-units later, storing its handle in
scrollRestoreTimeout; the nested frame and pass 2 apply their restores,
pass 2 releasing the reentrancy guard. -/
def dispatchJob (m : Machine) (j : Job) : Machine :=
  match j with
  | .debounceFire tid =>
    let r := handleToggleFire (toString m.time) m.heights m.st tid
    match r.2 with
    | none => { m with st := r.1 }
    | some cap =>
      { m with
        st := r.1,
        queue := m.queue ++ [(m.time + 16, m.nextId, Job.pass1Fire cap)],
        nextId := m.nextId + 1 }
  | .pass1Fire cap =>
    let r := pass1Run m.st cap
    let rafEntries := ((List.range r.2.length).zip r.2).map
      (fun z => (m.time + 16, m.nextId + z.1, Job.innerRafFire z.2.1 z.2.2))
    let nid := m.nextId + r.2.length
    { m with
      st := r.1,
      queue := m.queue ++ rafEntries ++ [(m.time + 100, nid, Job.pass2Fire cap)],
      scrollRestoreTimeout := some nid,
      nextId := nid + 1 }
  | .innerRafFire tid state =>
    { m with st := { m.st with dom := innerRafApply m.st.dom tid state } }
  | .pass2Fire cap =>
    { m with st := pass2Run m.st cap }

/-- Pops the due job with the smallest fire time, ties resolved in
scheduling order. -/
def popEarliest (q : List (Nat × Nat × Job)) :
    Option ((Nat × Nat × Job) × List (Nat × Nat × Job)) :=
  match q with
  | [] => none
  | e :: rest =>
    let tmin := rest.foldl (fun a x => min a x.1) e.1
    match q.find? (fun x => x.1 == tmin) with
    | some x => some (x, q.eraseP (fun y => y.1 == tmin))
    | none => none

/-- Runs the event loop to quiescence (bounded by fuel): repeatedly pops
the earliest pending job and dispatches it. -/
def runQ : Nat → Machine → Machine
  | 0, m => m
  | Nat.succ fuel, m =>
    match popEarliest m.queue with
    | none => m
    | some (e, rest) =>
      runQ fuel (dispatchJob { m with time := max m.time e.1, queue := rest } e.2.2)

/-- Runs the event loop up to a horizon (bounded by fuel): pops and
dispatches every job due at or before the horizon, then advances the
clock to the horizon. -/
def runUntil : Nat → Nat → Machine → Machine
  | 0, t, m => { m with time := t }
  | Nat.succ fuel, t, m =>
    match popEarliest m.queue with
    | none => { m with time := t }
    | some (e, rest) =>
      if e.1 ≤ t then
        runUntil fuel t (dispatchJob { m with time := max m.time e.1, queue := rest } e.2.2)
      else { m with time := t }

/-- An editor machine freshly opened on a note, with an idle reconciler,
empty history, and a rendered tree. -/
def initialMachine (note : Note) (d : Dom) (hs : Nat → Int) : Machine :=
  { time := 0, nextId := 0, queue := [], toggleDebounce := none,
    scrollRestoreTimeout := none, heights := hs,
    st := { currentNote := some note, isRestoring := false,
            history := ⟨[], []⟩, noteMgr := ⟨[note], 0⟩, renders := 0, dom := d } }

theorem find?_setAreaScrollTop_ne (i j : Nat) (v : Int) (h : j ≠ i) :
    ∀ l : List TextArea,
      (setAreaScrollTop l i v).find? (fun ta => ta.id == j) =
        l.find? (fun ta => ta.id == j) := by
  intro l
  induction l with
  | nil => rfl
  | cons ta rest ih =>
    by_cases hi : ta.id = i
    · have hj : ¬ ta.id = j := fun hc => h (hc.symm.trans hi)
      simp [setAreaScrollTop, hi, List.find?_cons, hj, h, Ne.symm h]
    · by_cases hj : ta.id = j
      · simp [setAreaScrollTop, hi, List.find?_cons, hj, h, Ne.symm h]
      · simp [setAreaScrollTop, hi, List.find?_cons, hj, ih]

theorem find?_setAreaScrollTop_self (i : Nat) (v : Int) :
    ∀ l : List TextArea,
      (setAreaScrollTop l i v).find? (fun ta => ta.id == i) =
        (l.find? (fun ta => ta.id == i)).map (fun ta => { ta with scrollTop := v }) := by
  intro l
  induction l with
  | nil => rfl
  | cons ta rest ih =>
    by_cases hi : ta.id = i
    · simp [setAreaScrollTop, hi, List.find?_cons]
    · simp [setAreaScrollTop, hi, List.find?_cons, ih]

theorem findArea_setScrollTop_ne (d : Dom) (i j : Nat) (v : Int) (h : j ≠ i) :
    findArea (setScrollTop d i v) j = findArea d j :=
  find?_setAreaScrollTop_ne i j v h d.areas

theorem findArea_setScrollTop_self (d : Dom) (i : Nat) (v : Int) :
    findArea (setScrollTop d i v) i =
      (findArea d i).map (fun ta => { ta with scrollTop := v }) :=
  find?_setAreaScrollTop_self i v d.areas

theorem pass1Step_ne (cap : Capture) (acc : Dom × List (Nat × ScrollState))
    (p : Nat × ScrollState) (j : Nat) (h : p.1 ≠ j) :
    findArea (pass1Step cap acc p).1 j = findArea acc.1 j ∧
    (∀ s, (j, s) ∈ (pass1Step cap acc p).2 ↔ (j, s) ∈ acc.2) := by
  unfold pass1Step
  cases hfa : findArea acc.1 p.1 with
  | none => exact ⟨rfl, fun s => Iff.rfl⟩
  | some ta =>
    dsimp only
    by_cases hh : _hashContent ta.value = p.2.contentHash
    · rw [if_pos hh]
      by_cases ht : p.1 = cap.toggleId
      · rw [if_pos ht]
        cases cap.toggleIsOpen
        · exact ⟨rfl, fun s => Iff.rfl⟩
        · have hred : (if (true : Bool) = true then (acc.1, acc.2 ++ [p]) else acc) =
              (acc.1, acc.2 ++ [p]) := if_pos rfl
          rw [hred]
          refine ⟨rfl, fun s => ?_⟩
          simp only [List.mem_append, List.mem_singleton]
          constructor
          · rintro (hm | he)
            · exact hm
            · exact absurd (congrArg Prod.fst he.symm) h
          · exact fun hm => Or.inl hm
      · rw [if_neg ht]
        exact ⟨findArea_setScrollTop_ne _ _ _ _ (Ne.symm h), fun s => Iff.rfl⟩
    · rw [if_neg hh]
      exact ⟨rfl, fun s => Iff.rfl⟩

theorem pass1Step_stale (cap : Capture) (acc : Dom × List (Nat × ScrollState))
    (p : Nat × ScrollState)
    (h : ∀ ta, findArea acc.1 p.1 = some ta → ¬ _hashContent ta.value = p.2.contentHash) :
    pass1Step cap acc p = acc := by
  unfold pass1Step
  cases hfa : findArea acc.1 p.1 with
  | none => rfl
  | some ta =>
    dsimp only
    rw [if_neg (h ta hfa)]

theorem pass1_fold_stale (cap : Capture) (j : Nat) :
    ∀ (l : List (Nat × ScrollState)) (acc : Dom × List (Nat × ScrollState)),
      (∀ s, (j, s) ∈ l → ∀ ta, findArea acc.1 j = some ta →
        ¬ _hashContent ta.value = s.contentHash) →
      findArea (l.foldl (pass1Step cap) acc).1 j = findArea acc.1 j ∧
      (∀ s, (j, s) ∈ (l.foldl (pass1Step cap) acc).2 ↔ (j, s) ∈ acc.2) := by
  intro l
  induction l with
  | nil => intro acc _; exact ⟨rfl, fun s => Iff.rfl⟩
  | cons p l ih =>
    intro acc hs
    rw [List.foldl_cons]
    by_cases hp : p.1 = j
    · have hmem : (j, p.2) ∈ p :: l := by
        have : p = (j, p.2) := by
          rw [← hp]
        rw [← this]
        exact List.mem_cons_self p l
      have hstep : pass1Step cap acc p = acc := by
        apply pass1Step_stale
        intro ta hta
        have hta2 : findArea acc.1 j = some ta := by rw [← hp]; exact hta
        exact hs p.2 hmem ta hta2
      rw [hstep]
      exact ih acc (fun s hsl => hs s (List.mem_cons_of_mem p hsl))
    · have hstep := pass1Step_ne cap acc p j hp
      have ihr := ih (pass1Step cap acc p)
        (fun s hsl ta hta => hs s (List.mem_cons_of_mem p hsl) ta (by rw [← hstep.1]; exact hta))
      exact ⟨ihr.1.trans hstep.1, fun s => (ihr.2 s).trans (hstep.2 s)⟩

theorem pass2Step_ne (cap : Capture) (d : Dom) (p : Nat × ScrollState) (j : Nat)
    (h : p.1 ≠ j) :
    findArea (pass2Step cap d p) j = findArea d j := by
  unfold pass2Step
  by_cases ht : p.1 ≠ cap.toggleId
  · rw [if_pos ht]
    cases hfa : findArea d p.1 with
    | none => rfl
    | some ta =>
      dsimp only
      by_cases hh : _hashContent ta.value = p.2.contentHash
      · rw [if_pos hh]
        exact findArea_setScrollTop_ne _ _ _ _ (Ne.symm h)
      · rw [if_neg hh]
  · rw [if_neg ht]

theorem pass2Step_stale (cap : Capture) (d : Dom) (p : Nat × ScrollState)
    (h : ∀ ta, findArea d p.1 = some ta → ¬ _hashContent ta.value = p.2.contentHash) :
    pass2Step cap d p = d := by
  unfold pass2Step
  by_cases ht : p.1 ≠ cap.toggleId
  · rw [if_pos ht]
    cases hfa : findArea d p.1 with
    | none => rfl
    | some ta =>
      dsimp only
      rw [if_neg (h ta hfa)]
  · rw [if_neg ht]

theorem pass2_fold_stale (cap : Capture) (j : Nat) :
    ∀ (l : List (Nat × ScrollState)) (d : Dom),
      (∀ s, (j, s) ∈ l → ∀ ta, findArea d j = some ta →
        ¬ _hashContent ta.value = s.contentHash) →
      findArea (l.foldl (pass2Step cap) d) j = findArea d j := by
  intro l
  induction l with
  | nil => intro d _; rfl
  | cons p l ih =>
    intro d hs
    rw [List.foldl_cons]
    by_cases hp : p.1 = j
    · have hmem : (j, p.2) ∈ p :: l := by
        have : p = (j, p.2) := by rw [← hp]
        rw [← this]
        exact List.mem_cons_self p l
      have hstep : pass2Step cap d p = d := by
        apply pass2Step_stale
        intro ta hta
        have hta2 : findArea d j = some ta := by rw [← hp]; exact hta
        exact hs p.2 hmem ta hta2
      rw [hstep]
      exact ih d (fun s hsl => hs s (List.mem_cons_of_mem p hsl))
    · have hstep := pass2Step_ne cap d p j hp
      have ihr := ih (pass2Step cap d p)
        (fun s hsl ta hta => hs s (List.mem_cons_of_mem p hsl) ta (by rw [← hstep]; exact hta))
      exact ihr.trans hstep

theorem pass2Target_ne (cap : Capture) (d : Dom) (j : Nat) (h : j ≠ cap.toggleId) :
    findArea (pass2Target d cap) j = findArea d j := by
  unfold pass2Target
  cases cap.toggleIsOpen
  · rfl
  · cases cap.toggleScrollState with
    | none => rfl
    | some ts =>
      cases findArea d cap.toggleId with
      | none => rfl
      | some ta =>
        dsimp only
        by_cases hh : _hashContent ta.value = ts.contentHash
        · rw [if_pos hh]
          exact findArea_setScrollTop_ne _ _ _ _ h
        · rw [if_neg hh]
          rfl

theorem pass2Target_stale (cap : Capture) (d : Dom)
    (h : ∀ s, (cap.toggleId, s) ∈ cap.scrollPositions →
      ∀ ta, findArea d cap.toggleId = some ta → ¬ _hashContent ta.value = s.contentHash) :
    pass2Target d cap = d := by
  unfold pass2Target
  cases cap.toggleIsOpen
  · rfl
  · cases hts : cap.toggleScrollState with
    | none => rfl
    | some ts =>
      cases hfa : findArea d cap.toggleId with
      | none => rfl
      | some ta =>
        dsimp only
        have hmem : (cap.toggleId, ts) ∈ cap.scrollPositions := by
          unfold Capture.toggleScrollState at hts
          cases hf : cap.scrollPositions.find? (fun p => p.1 == cap.toggleId) with
          | none => rw [hf] at hts; exact absurd hts (by simp)
          | some pr =>
            rw [hf] at hts
            have hpr : pr.2 = ts := by simpa using hts
            have hkey : pr.1 = cap.toggleId := by simpa using List.find?_some hf
            have : pr = (cap.toggleId, ts) := by rw [← hkey, ← hpr]
            rw [← this]
            exact List.mem_of_find?_eq_some hf
        rw [if_neg (h ts hmem ta hfa)]
        rfl

theorem pass1Step_restore (cap : Capture) (acc : Dom × List (Nat × ScrollState))
    (j : Nat) (s : ScrollState) (ta : TextArea)
    (hfa : findArea acc.1 j = some ta)
    (hh : _hashContent ta.value = s.contentHash)
    (hj : j ≠ cap.toggleId) :
    pass1Step cap acc (j, s) = (setScrollTop acc.1 j (restoredScrollTop s ta), acc.2) := by
  unfold pass1Step
  dsimp only
  rw [hfa]
  dsimp only
  rw [if_pos hh, if_neg hj]

theorem pass2Step_restore (cap : Capture) (d : Dom)
    (j : Nat) (s : ScrollState) (ta : TextArea)
    (hj : j ≠ cap.toggleId)
    (hfa : findArea d j = some ta)
    (hh : _hashContent ta.value = s.contentHash) :
    pass2Step cap d (j, s) = setScrollTop d j s.scrollTop := by
  unfold pass2Step
  dsimp only
  rw [if_pos hj, hfa]
  dsimp only
  rw [if_pos hh]

/-- C6: in each restoration pass independently, a region whose live
content hash differs from the captured hash recorded for it is left
untouched: pass 1 neither changes it nor schedules a deferred restore
for it, and pass 2, re-verifying the hash against its own (possibly
later) tree, also leaves the region untouched even if pass 1 had
restored it. -/
theorem hash_guard_skips_stale_region (cap : Capture) (d1 d2 : Dom) (j : Nat)
    (h1 : ∀ s, (j, s) ∈ cap.scrollPositions → ∀ ta, findArea d1 j = some ta →
      ¬ _hashContent ta.value = s.contentHash)
    (h2 : ∀ s, (j, s) ∈ cap.scrollPositions → ∀ ta, findArea d2 j = some ta →
      ¬ _hashContent ta.value = s.contentHash) :
    findArea (pass1Apply d1 cap).1 j = findArea d1 j ∧
    (∀ s, (j, s) ∉ (pass1Apply d1 cap).2) ∧
    findArea (pass2Apply d2 cap) j = findArea d2 j := by
  unfold pass1Apply pass2Apply
  have hp1 := pass1_fold_stale cap j cap.scrollPositions
    ({ d1 with editorScrollTop := cap.editorScrollTop }, []) h1
  refine ⟨hp1.1, ?_, ?_⟩
  · intro s hm
    exact absurd ((hp1.2 s).mp hm) (by simp)
  · by_cases hj : j = cap.toggleId
    · subst hj
      have htar : pass2Target d2 cap = d2 := pass2Target_stale cap d2 h2
      rw [htar]
      exact pass2_fold_stale cap cap.toggleId cap.scrollPositions d2 h2
    · have htar := pass2Target_ne cap d2 j hj
      have hfold := pass2_fold_stale cap j cap.scrollPositions (pass2Target d2 cap)
        (fun s hm ta hta => h2 s hm ta (htar.symm.trans hta))
      exact hfold.trans htar

/-- Capture fixture for the stale-region witness: region 2 was captured
with content "old"; the target toggle is 1. -/
def capStale : Capture := ⟨10, [(2, ⟨100, 200, "old", _hashContent "old"⟩)], 1, true⟩

/-- Tree fixture for the stale-region witness: region 2 now holds
content "new", so its live hash no longer matches the captured one. -/
def domStale : Dom := ⟨0, [⟨2, "new", 33, 400⟩]⟩

/-- Witness for C6 at a concrete capture and tree. -/
theorem hash_guard_skips_stale_region_witness :
    findArea (pass1Apply domStale capStale).1 2 = findArea domStale 2 ∧
    findArea (pass2Apply domStale capStale) 2 = findArea domStale 2 := by
  have hyp : ∀ s, ((2 : Nat), s) ∈ capStale.scrollPositions →
      ∀ ta, findArea domStale 2 = some ta → ¬ _hashContent ta.value = s.contentHash := by
    intro s hm ta hta
    have hs : s = ⟨100, 200, "old", _hashContent "old"⟩ := by
      simpa [capStale] using hm
    have hta2 : ta = ⟨2, "new", 33, 400⟩ := by
      have : some (⟨2, "new", 33, 400⟩ : TextArea) = some ta := by
        rw [← hta]
        rfl
      simpa using this.symm
    rw [hs, hta2]
    decide
  have h := hash_guard_skips_stale_region capStale domStale domStale 2 hyp hyp
  exact ⟨h.1, h.2.2⟩

/-- C5 amended: for a non-target region whose content hash still matches,
pass 1 restores the rescaled scrollTop (captured scrollTop times the
ratio of new to old scrollHeight, rounded) when the scrollHeight changed
between capture and restore; but pass 2, 100 time-units later, reapplies
the captured scrollTop verbatim whenever the hash still matches, so the
value the protocol finally leaves is the captured scrollTop, not the
rescaled one. -/
theorem rescale_pass1_verbatim_pass2 (cap : Capture) (d1 d2 : Dom) (j : Nat)
    (s : ScrollState) (ta1 ta2 : TextArea)
    (hnodup : (cap.scrollPositions.map Prod.fst).Nodup)
    (hmem : (j, s) ∈ cap.scrollPositions)
    (hj : j ≠ cap.toggleId)
    (h1 : findArea d1 j = some ta1)
    (hh1 : _hashContent ta1.value = s.contentHash)
    (hgrow : s.scrollHeight ≠ ta1.scrollHeight)
    (h2 : findArea d2 j = some ta2)
    (hh2 : _hashContent ta2.value = s.contentHash) :
    (findArea (pass1Apply d1 cap).1 j).map TextArea.scrollTop =
      some (jsRound (s.scrollTop * ta1.scrollHeight) s.scrollHeight) ∧
    (findArea (pass2Apply d2 cap) j).map TextArea.scrollTop = some s.scrollTop := by
  obtain ⟨l1, l2, hsplit⟩ := List.append_of_mem hmem
  have hkeys : ((l1.map Prod.fst) ++ j :: (l2.map Prod.fst)).Nodup := by
    rw [hsplit] at hnodup
    simpa using hnodup
  have hj1 : ∀ s', (j, s') ∉ l1 := by
    intro s' hm
    have hjin : j ∈ l1.map Prod.fst := List.mem_map_of_mem Prod.fst hm
    exact (List.nodup_append.mp hkeys).2.2 hjin (List.mem_cons_self _ _)
  have hj2 : ∀ s', (j, s') ∉ l2 := by
    intro s' hm
    have hjin : j ∈ l2.map Prod.fst := List.mem_map_of_mem Prod.fst hm
    exact (List.nodup_cons.mp (List.nodup_append.mp hkeys).2.1).1 hjin
  constructor
  · unfold pass1Apply
    rw [hsplit, List.foldl_append, List.foldl_cons]
    have hpre := pass1_fold_stale cap j l1
      ({ d1 with editorScrollTop := cap.editorScrollTop }, [])
      (fun s' hm => absurd hm (hj1 s'))
    have hfa1 : findArea (l1.foldl (pass1Step cap)
        ({ d1 with editorScrollTop := cap.editorScrollTop }, [])).1 j = some ta1 :=
      hpre.1.trans h1
    rw [pass1Step_restore cap
      (l1.foldl (pass1Step cap) ({ d1 with editorScrollTop := cap.editorScrollTop }, []))
      j s ta1 hfa1 hh1 hj]
    have hpost := pass1_fold_stale cap j l2
      (setScrollTop
        (l1.foldl (pass1Step cap)
          ({ d1 with editorScrollTop := cap.editorScrollTop }, [])).1
        j (restoredScrollTop s ta1),
       (l1.foldl (pass1Step cap)
          ({ d1 with editorScrollTop := cap.editorScrollTop }, [])).2)
      (fun s' hm => absurd hm (hj2 s'))
    rw [hpost.1]
    dsimp only
    rw [findArea_setScrollTop_self, hfa1]
    simp [restoredScrollTop, hgrow]
  · unfold pass2Apply
    rw [hsplit, List.foldl_append, List.foldl_cons]
    have htar := pass2Target_ne cap d2 j hj
    have hpre := pass2_fold_stale cap j l1 (pass2Target d2 cap)
      (fun s' hm => absurd hm (hj1 s'))
    have hfa2 : findArea (l1.foldl (pass2Step cap) (pass2Target d2 cap)) j = some ta2 :=
      hpre.trans (htar.trans h2)
    rw [pass2Step_restore cap (l1.foldl (pass2Step cap) (pass2Target d2 cap))
      j s ta2 hj hfa2 hh2]
    have hpost := pass2_fold_stale cap j l2
      (setScrollTop (l1.foldl (pass2Step cap) (pass2Target d2 cap)) j s.scrollTop)
      (fun s' hm => absurd hm (hj2 s'))
    rw [hpost, findArea_setScrollTop_self, hfa2]
    simp

/-- Capture fixture for the rescale witness: region 2 captured at
scrollTop 100 with scrollHeight 200; the target toggle is 1. -/
def capRescale : Capture := ⟨10, [(2, ⟨100, 200, "xyz", _hashContent "xyz"⟩)], 1, false⟩

/-- Tree fixture for the rescale witness: region 2 reports scrollHeight
400 after the re-render with unchanged content. -/
def domRescale : Dom := ⟨0, [⟨2, "xyz", 0, 400⟩]⟩

/-- Witness for the amended C5 at the spec's example numbers. -/
theorem rescale_pass1_verbatim_pass2_witness :
    (findArea (pass1Apply domRescale capRescale).1 2).map TextArea.scrollTop =
      some (jsRound (100 * 400) 200) ∧
    (findArea (pass2Apply domRescale capRescale) 2).map TextArea.scrollTop = some 100 :=
  rescale_pass1_verbatim_pass2 capRescale domRescale domRescale 2
    ⟨100, 200, "xyz", _hashContent "xyz"⟩ ⟨2, "xyz", 0, 400⟩ ⟨2, "xyz", 0, 400⟩
    (by decide) (by decide) (by decide) rfl rfl (by decide) rfl rfl

/-- Note fixture with two open sections. -/
def noteTwoOpen : Note :=
  ⟨7, "T", [⟨1, "S1", "abc", true⟩, ⟨2, "S2", "xyz", true⟩], "c0", "u0"⟩

/-- Rendered-tree fixture matching noteTwoOpen. -/
def domTwoOpen : Dom := ⟨10, [⟨1, "abc", 5, 150⟩, ⟨2, "xyz", 100, 200⟩]⟩

/-- Layout oracle keeping both regions at their captured heights. -/
def heightsStable : Nat → Int := fun i => if i == 1 then 150 else 200

/-- Layout oracle under which region 2 reflows to scrollHeight 400. -/
def heightsGrow : Nat → Int := fun i => if i == 1 then 150 else 400

/-- The C5 trace stopped between the two restore passes: toggle 1 is
requested at time 0, the debounce fires at 50, pass 1 runs at 66, and
the machine is observed at time 70, before pass 2 fires at 166. -/
def machineRescaleMid : Machine :=
  runUntil 40 70 (toggleSection (initialMachine noteTwoOpen domTwoOpen heightsGrow) 1)

/-- The C5 trace run to quiescence: both restore passes have run. -/
def machineRescaleFinal : Machine :=
  runQ 40 (toggleSection (initialMachine noteTwoOpen domTwoOpen heightsGrow) 1)

/-- C5 counterexample: at the spec's own example (captured scrollTop 100,
scrollHeight 200; post-render scrollHeight 400 with unchanged content
hash) the scrollTop the protocol finally restores for region 2 is the
captured 100, not the rescaled 200: pass 1 does set 200, but pass 2
reapplies the captured value verbatim and overwrites it. -/
theorem rescale_final_value_counterexample :
    (findArea machineRescaleMid.st.dom 2).map TextArea.scrollTop = some 200 ∧
    (findArea machineRescaleFinal.st.dom 2).map TextArea.scrollTop = some 100 ∧
    machineRescaleFinal.st.isRestoring = false ∧
    machineRescaleFinal.queue = [] ∧
    ¬ ((100 : Int) = jsRound (100 * 400) 200) := by
  exact ⟨by decide, by decide, by decide, by decide, by decide⟩

theorem toggleSection_queue (m : Machine) (tid : Nat) (n : Note)
    (hnote : m.st.currentNote = some n) :
    (toggleSection m tid).queue =
      cancelTimer (cancelTimer m.queue m.toggleDebounce) m.scrollRestoreTimeout ++
        [(m.time + 50, m.nextId, Job.debounceFire tid)] := by
  unfold toggleSection
  rw [hnote]

/-- The C7 trace: requestToggle(1) at time 0, requestToggle(2) at time
20 (within the 50-time-unit debounce window), run to quiescence. -/
def machineCoalesce : Machine :=
  runQ 30 (toggleSection
    (runUntil 30 20 (toggleSection (initialMachine noteTwoOpen domTwoOpen heightsStable) 1)) 2)

/-- C7: a second requestToggle within the debounce window cancels the
pending debounce and re-arms it with the new toggle id (last-call-wins),
and the coalesced trace from Idle performs exactly one structural
mutation: one history push, one re-render, flipping only the toggle
named by the last call. -/
theorem toggle_debounce_coalesces :
    (∀ (m : Machine) (i tid : Nat) (n : Note),
      m.toggleDebounce = some i → m.st.currentNote = some n → i ≠ m.nextId →
      (∀ e ∈ (toggleSection m tid).queue, e.2.1 ≠ i) ∧
      (m.time + 50, m.nextId, Job.debounceFire tid) ∈ (toggleSection m tid).queue) ∧
    (machineCoalesce.st.history.undoStack.length = 1 ∧
     machineCoalesce.st.renders = 1 ∧
     machineCoalesce.st.isRestoring = false ∧
     machineCoalesce.queue = [] ∧
     machineCoalesce.st.currentNote.map Note.toggles =
       some [⟨1, "S1", "abc", true⟩, ⟨2, "S2", "xyz", false⟩] ∧
     machineCoalesce.st.history.undoStack.map Note.toggles =
       [[⟨1, "S1", "abc", true⟩, ⟨2, "S2", "xyz", true⟩]]) := by
  constructor
  · intro m i tid n hdeb hnote hii
    rw [toggleSection_queue m tid n hnote]
    constructor
    · intro e he
      rcases List.mem_append.mp he with hin | hnew
      · rw [hdeb] at hin
        have hin1 : e ∈ cancelTimer m.queue (some i) := by
          cases hsrt : m.scrollRestoreTimeout with
          | none => rw [hsrt] at hin; exact hin
          | some k => rw [hsrt] at hin; exact List.mem_of_mem_filter hin
        have hp := List.of_mem_filter hin1
        simpa using hp
      · have hee : e = (m.time + 50, m.nextId, Job.debounceFire tid) := by
          simpa using hnew
        rw [hee]
        exact fun hc => hii hc.symm
    · exact List.mem_append.mpr (Or.inr (by simp))
  · exact ⟨by decide, by decide, by decide, by decide, by decide, by decide⟩

/-- Witness for C7's cancellation property at a concrete machine holding
an armed debounce: the single job left queued after the second call is
the re-armed debounce, not the cancelled one. -/
theorem toggle_debounce_coalesces_witness :
    ((50 : Nat), (1 : Nat), Job.debounceFire 2).2.1 ≠ 0 ∧
    ((toggleSection (initialMachine noteTwoOpen domTwoOpen heightsStable) 1).time + 50,
      (toggleSection (initialMachine noteTwoOpen domTwoOpen heightsStable) 1).nextId,
      Job.debounceFire 2) ∈
      (toggleSection (toggleSection (initialMachine noteTwoOpen domTwoOpen heightsStable) 1) 2).queue :=
  ⟨(toggle_debounce_coalesces.1
      (toggleSection (initialMachine noteTwoOpen domTwoOpen heightsStable) 1)
      0 2 noteTwoOpen rfl rfl (by decide)).1 (50, 1, Job.debounceFire 2) (by decide),
   (toggle_debounce_coalesces.1
      (toggleSection (initialMachine noteTwoOpen domTwoOpen heightsStable) 1)
      0 2 noteTwoOpen rfl rfl (by decide)).2⟩

/-- The C8 trace: requestToggle(1) at time 0; its debounce fires at 50
and the reconciliation is in flight (pass 1 pending at 66) when
requestToggle(2) arrives at time 60; the second debounce fires at 110,
while the guard is still held, and is dropped; pass 2 fires at 166. -/
def machineOverlap : Machine :=
  runQ 40 (toggleSection
    (runUntil 30 60 (toggleSection (initialMachine noteTwoOpen domTwoOpen heightsStable) 1)) 2)

/-- An editor state whose reentrancy guard is held. -/
def stGuardHeld : EditorState :=
  ⟨some noteTwoOpen, true, ⟨[], []⟩, ⟨[noteTwoOpen], 0⟩, 0, domTwoOpen⟩

/-- C8: a debounce firing while the reentrancy guard is held is dropped,
not queued: the handler returns with the state untouched and schedules
nothing, dispatching such a job leaves the machine unchanged, and the
overlapping-requests trace performs exactly one mutation: one push, one
re-render, only the first toggle flipped, guard released at the end. -/
theorem reentrancy_guard_drops :
    (∀ (now : String) (hs : Nat → Int) (st : EditorState) (tid : Nat),
      st.isRestoring = true → handleToggleFire now hs st tid = (st, none)) ∧
    (∀ (m : Machine) (tid : Nat), m.st.isRestoring = true →
      dispatchJob m (Job.debounceFire tid) = m) ∧
    (machineOverlap.st.history.undoStack.length = 1 ∧
     machineOverlap.st.renders = 1 ∧
     machineOverlap.st.isRestoring = false ∧
     machineOverlap.queue = [] ∧
     machineOverlap.st.currentNote.map Note.toggles =
       some [⟨1, "S1", "abc", false⟩, ⟨2, "S2", "xyz", true⟩]) := by
  have hdrop : ∀ (now : String) (hs : Nat → Int) (st : EditorState) (tid : Nat),
      st.isRestoring = true → handleToggleFire now hs st tid = (st, none) := by
    intro now hs st tid h
    unfold handleToggleFire
    rw [if_pos h]
  refine ⟨hdrop, ?_, by decide, by decide, by decide, by decide, by decide⟩
  intro m tid h
  unfold dispatchJob
  dsimp only
  rw [hdrop (toString m.time) m.heights m.st tid h]

/-- Witness for C8 at a concrete guard-held state and machine. -/
theorem reentrancy_guard_drops_witness :
    handleToggleFire "now" heightsStable stGuardHeld 2 = (stGuardHeld, none) :=
  reentrancy_guard_drops.1 "now" heightsStable stGuardHeld 2 rfl

/-- Note fixture for the guard-leak trace: section 1 open, section 2
closed. -/
def noteLeak : Note :=
  ⟨3, "T", [⟨1, "S1", "abc", true⟩, ⟨2, "S2", "xyz", false⟩], "c0", "u0"⟩

/-- Rendered-tree fixture matching noteLeak. -/
def domLeak : Dom := ⟨10, [⟨1, "abc", 5, 150⟩, ⟨2, "xyz", 0, 40⟩]⟩

/-- The guard-leak trace: requestToggle(1) at time 0; debounce fires at
50, pass 1 runs at 66 and arms pass 2 for 166; requestToggle(2) arrives
at time 100, between the two passes, and clears the pass-2 timer — the
only pending continuation that would release the reentrancy guard; the
second debounce fires at 150 and is dropped because the guard is still
held; the machine then goes quiescent. -/
def machineLeak : Machine :=
  runQ 40 (toggleSection
    (runUntil 40 100 (toggleSection (initialMachine noteLeak domLeak heightsStable) 1)) 2)

/-- A further toggle request at time 500 against the leaked machine: its
debounce fires and is dropped, for ever. -/
def machineLeakAfter : Machine :=
  runQ 40 (toggleSection (runUntil 40 500 machineLeak) 1)

/-- C3 evaluation: a requestToggle arriving between the two restore
passes cancels the pass-2 timer, the only pending job that resets
isRestoring, so the machine goes quiescent (empty queue) with the
reentrancy guard still held; the later request at time 500 changes
nothing — no push, no render, no note change — and the guard is still
held with nothing pending: the reconciler never returns to Idle and
every later toggle request is permanently dropped, contradicting the
claim. -/
theorem reconciler_guard_leak :
    machineLeak.st.isRestoring = true ∧
    machineLeak.queue = [] ∧
    machineLeak.st.history.undoStack.length = 1 ∧
    machineLeak.st.renders = 1 ∧
    machineLeakAfter.st.isRestoring = true ∧
    machineLeakAfter.queue = [] ∧
    machineLeakAfter.st.history.undoStack.length = 1 ∧
    machineLeakAfter.st.renders = 1 ∧
    machineLeakAfter.st.currentNote = machineLeak.st.currentNote := by
  exact ⟨by decide, by decide, by decide, by decide, by decide,
         by decide, by decide, by decide, by decide⟩

/-- Note fixture for the capture-phase exception. -/
def noteCapture : Note := ⟨4, "T", [⟨1, "S1", "abc", true⟩], "c0", "u0"⟩

/-- Rendered tree with nonzero scroll offsets, to observe the absence of
a reset. -/
def domCapture : Dom := ⟨7, [⟨1, "abc", 42, 150⟩]⟩

/-- Editor state for the capture-phase exception. -/
def stCapture : EditorState :=
  ⟨some noteCapture, false, ⟨[], []⟩, ⟨[noteCapture], 0⟩, 0, domCapture⟩

/-- A constant layout oracle. -/
def heightsConst : Nat → Int := fun _ => 150

/-- C4 counterexample: requesting toggle id 99, which the note does not
contain, makes the capture phase throw (line 447); the outer catch only
logs and releases the guard: the container keeps scrollTop 7 and the
region keeps scrollTop 42 — no hard reset to 0 is performed, refuting
the claim for capture-phase exceptions. -/
theorem capture_exception_no_reset_counterexample :
    handleToggleFire "now" heightsConst stCapture 99 = (stCapture, none) ∧
    (handleToggleFire "now" heightsConst stCapture 99).1.dom.editorScrollTop = 7 ∧
    (findArea (handleToggleFire "now" heightsConst stCapture 99).1.dom 1).map
      TextArea.scrollTop = some 42 ∧
    ¬ (handleToggleFire "now" heightsConst stCapture 99).1.dom =
      _resetScrollPositions (handleToggleFire "now" heightsConst stCapture 99).1.dom := by
  exact ⟨by decide, by decide, by decide, by decide⟩

/-- C4 amended: an exception raised during restoration pass 1 or pass 2
is caught and answered by the hard reset — the container's scrollTop and
every tracked region's scrollTop set to 0 — together with the release of
the reentrancy guard; an exception raised during the capture phase is
caught and releases the guard, but performs no scroll reset and
schedules no restore: the state is returned untouched. -/
theorem restore_exception_hard_reset (st : EditorState) :
    (pass1Catch st).dom.editorScrollTop = 0 ∧
    (∀ ta ∈ (pass1Catch st).dom.areas, ta.scrollTop = 0) ∧
    (pass1Catch st).isRestoring = false ∧
    (pass2Catch st).dom.editorScrollTop = 0 ∧
    (∀ ta ∈ (pass2Catch st).dom.areas, ta.scrollTop = 0) ∧
    (pass2Catch st).isRestoring = false ∧
    (∀ (now : String) (hs : Nat → Int) (tid : Nat) (note : Note),
      st.currentNote = some note →
      note.toggles.find? (fun t => t.id == tid) = none →
      handleToggleFire now hs st tid = (st, none)) := by
  refine ⟨rfl, ?_, rfl, rfl, ?_, rfl, ?_⟩
  · intro ta hta
    rcases List.mem_map.mp hta with ⟨tb, _, heq⟩
    rw [← heq]
  · intro ta hta
    rcases List.mem_map.mp hta with ⟨tb, _, heq⟩
    rw [← heq]
  · intro now hs tid note hnote hfind
    unfold handleToggleFire
    by_cases hr : st.isRestoring = true
    · rw [if_pos hr]
    · rw [if_neg hr, hnote]
      dsimp only
      rw [hfind]

/-- Witness for the amended C4 at a concrete editor state. -/
theorem restore_exception_hard_reset_witness :
    TextArea.scrollTop ⟨1, "abc", 0, 150⟩ = 0 ∧
    handleToggleFire "now" heightsConst stCapture 99 = (stCapture, none) :=
  ⟨(restore_exception_hard_reset stCapture).2.1 ⟨1, "abc", 0, 150⟩ (by decide),
   (restore_exception_hard_reset stCapture).2.2.2.2.2.2 "now" heightsConst 99 noteCapture
     rfl (by decide)⟩
